import Mathlib

/-!
Verification of the `gwsumm` command-line module (`gwsumm/__main__.py`).

Python strings are embedded as lists of characters (`PyStr`), so that string
comparison, lowercasing and splitting are fully computable in the kernel.
External libraries used by the module (`lal.gpstime`, `datetime`,
`dateutil.relativedelta`, `gwpy`) are abstracted as explicit function
parameters, following the module's excerpted behaviour; everything that the
module itself computes is translated directly from the source.
-/

/-- A Python string, as its list of characters. -/
abbrev PyStr := List Char

/-- Build a `PyStr` from a Lean string literal. -/
def pys (s : String) : PyStr := s.toList

/-- Python lexicographic strict comparison `a < b` on strings
(code-point order, shorter prefix first). -/
def lexLt : PyStr → PyStr → Bool
  | [], [] => false
  | [], _ :: _ => true
  | _ :: _, [] => false
  | a :: as, b :: bs =>
    if a < b then true
    else if b < a then false
    else lexLt as bs

/-- Python `a <= b` on strings, i.e. `not (b < a)` for the total order. -/
def lexLe (a b : PyStr) : Bool := !(lexLt b a)

theorem lexLt_asymm : ∀ a b : PyStr, lexLt a b = true → lexLt b a = false := by
  intro a
  induction a with
  | nil => intro b _; cases b <;> simp [lexLt]
  | cons x xs ih =>
    intro b h
    cases b with
    | nil => simp [lexLt] at h
    | cons y ys =>
      simp only [lexLt] at h ⊢
      rcases lt_trichotomy x y with hl | he | hg
      · simp [hl, not_lt.mpr (le_of_lt hl)]
      · simp only [he, lt_irrefl, if_false] at h ⊢
        exact ih ys h
      · simp [hg, not_lt.mpr (le_of_lt hg)] at h

theorem lexLt_trans : ∀ a b c : PyStr,
    lexLt a b = true → lexLt b c = true → lexLt a c = true := by
  intro a
  induction a with
  | nil =>
    intro b c hab hbc
    cases b with
    | nil => simp [lexLt] at hab
    | cons y ys => cases c with
      | nil => simp [lexLt] at hbc
      | cons z zs => simp [lexLt]
  | cons x xs ih =>
    intro b c hab hbc
    cases b with
    | nil => simp [lexLt] at hab
    | cons y ys =>
      cases c with
      | nil => simp [lexLt] at hbc
      | cons z zs =>
        simp only [lexLt] at hab hbc ⊢
        rcases lt_trichotomy x y with h1 | h1 | h1
        · rcases lt_trichotomy y z with h2 | h2 | h2
          · simp [lt_trans h1 h2]
          · simp [h2 ▸ h1]
          · exfalso
            rw [if_neg (not_lt.mpr (le_of_lt h2)), if_pos h2] at hbc
            simp at hbc
        · rcases lt_trichotomy y z with h2 | h2 | h2
          · simp [h1 ▸ h2]
          · have hxz : x = z := h1.trans h2
            subst hxz
            rw [if_neg (by simp [h1]), if_neg (by simp [h1])] at hab
            rw [if_neg (by simp [h2]), if_neg (by simp [h2])] at hbc
            simp only [lt_irrefl, if_false]
            exact ih ys zs hab hbc
          · exfalso
            rw [if_neg (not_lt.mpr (le_of_lt h2)), if_pos h2] at hbc
            simp at hbc
        · exfalso
          rw [if_neg (not_lt.mpr (le_of_lt h1)), if_pos h1] at hab
          simp at hab

theorem lexLt_trichotomy : ∀ a b : PyStr,
    lexLt a b = true ∨ a = b ∨ lexLt b a = true := by
  intro a
  induction a with
  | nil => intro b; cases b <;> simp [lexLt]
  | cons x xs ih =>
    intro b
    cases b with
    | nil => simp [lexLt]
    | cons y ys =>
      rcases lt_trichotomy x y with h | h | h
      · left; simp [lexLt, h]
      · subst h
        rcases ih ys with h2 | h2 | h2
        · left; simp [lexLt, h2]
        · right; left; rw [h2]
        · right; right; simp [lexLt, h2]
      · right; right; simp [lexLt, h]

theorem lexLe_total : ∀ a b : PyStr, lexLe a b || lexLe b a := by
  intro a b
  simp only [lexLe, Bool.or_eq_true, Bool.not_eq_true']
  by_cases h : lexLt b a = true
  · right; exact lexLt_asymm _ _ h
  · left; simpa using h

theorem lexLe_trans : ∀ a b c : PyStr,
    lexLe a b = true → lexLe b c = true → lexLe a c = true := by
  intro a b c hab hbc
  simp only [lexLe, Bool.not_eq_true'] at hab hbc ⊢
  by_contra h
  have hca : lexLt c a = true := by simpa using h
  rcases lexLt_trichotomy a b with h1 | h1 | h1
  · have := lexLt_trans c a b hca h1
    rw [this] at hbc; exact Bool.true_eq_false.mp hbc
  · rw [h1] at hca
    rw [hca] at hbc; exact Bool.true_eq_false.mp hbc
  · rw [h1] at hab; exact Bool.true_eq_false.mp hab

/-- Python `str.lower` restricted to the characters used here. -/
def lowerStr (s : PyStr) : PyStr := s.map Char.toLower

/-- Python `str.split(sep)` for a one-character separator
(`'A,B,C'.split(',') == ['A','B','C']`; no stripping of the pieces). -/
def splitOnChar (c : Char) (s : PyStr) : List PyStr :=
  match s with
  | [] => [[]]
  | x :: xs =>
    let rest := splitOnChar c xs
    if x == c then [] :: rest
    else match rest with
      | [] => [[x]]
      | r :: rs => (x :: r) :: rs

/-- Python `str.rstrip()`: drop trailing whitespace. -/
def rstripP (s : PyStr) : PyStr := (s.reverse.dropWhile Char.isWhitespace).reverse

/-- Python `str.isdigit()` for ASCII content: nonempty and all digits. -/
def isDigits (s : PyStr) : Bool := !s.isEmpty && s.all Char.isDigit

/-- Python truthiness of an optional string (`None` and `''` are falsy). -/
def truthyOptStr : Option PyStr → Bool
  | none => false
  | some s => !s.isEmpty

/-- Python truthiness of an optional integer (`None` and `0` are falsy). -/
def truthyOptInt : Option Int → Bool
  | none => false
  | some n => n != 0

/-!
Time-range resolution (`__main__.py` lines 135-206).

The time-mode command-line options.  `day`/`week`/`month`/`year` hold the raw
option strings (`None` when the flag was not given); the GPS flags hold
integers.  The `[calendar] start-of-week` configuration value is passed
separately, already resolved to a weekday number (the name-to-number lookup
`getattr(calendar, ...)` is external).
-/

structure TimeOpts where
  day : Option PyStr
  week : Option PyStr
  month : Option PyStr
  year : Option PyStr
  gpsStartTime : Option Int
  gpsEndTime : Option Int
deriving DecidableEq

/-- External time services used by the module: `datetime.strptime` parsers
(returning a calendar date as a day count, `none` on a malformed string),
`tm_wday`, `lal.gpstime.utc_to_gps`, `dateutil.relativedelta` month/year
steps, and the current UTC date.  Day-based arithmetic
(`timedelta(days=n)`) is addition on the day count. -/
structure TimeLib where
  parseYmd : PyStr → Option Int
  parseYm : PyStr → Option Int
  parseY : PyStr → Option Int
  weekday : Int → Int
  utcToGps : Int → Int
  addMonths : Int → Int
  addYears : Int → Int
  today : Int

/-- The count `N` of `__main__.py` line 135: how many of `--day`, `--month`,
`--gps-start-time`, `--gps-end-time` were supplied (`is not None`).
`--week` and `--year` are not counted by the source. -/
def timeOptCount (o : TimeOpts) : Nat :=
  (if o.day.isSome then 1 else 0) + (if o.month.isSome then 1 else 0) +
    (if o.gpsStartTime.isSome then 1 else 0) + (if o.gpsEndTime.isSome then 1 else 0)

def conflictMsg : PyStr :=
  pys "OptionValueError: Please give only one of --day, --month, or --gps-start-time and --gps-end-time."

def dayMalformedMsg : PyStr := pys "OptionValueError: --day malformed. Please format as YYYYMMDD"

def weekMalformedMsg : PyStr := pys "OptionValueError: --week malformed. Please format as YYYYMMDD"

def weekStartMsg : PyStr := pys "OptionValueError: Cannot process week starting on the given day."

def monthMalformedMsg : PyStr := pys "OptionValueError: --month malformed. Please format as YYYYMM"

def yearMalformedMsg : PyStr := pys "OptionValueError: --year malformed. Please format as YYYY"

def bothGpsMsg : PyStr := pys "OptionValueError: Please give both --gps-start-time and --gps-end-time."

/-- Time-range resolution, `__main__.py` lines 135-206: the conflict check,
then the `--day` / `--week` / `--month` / `--year` / explicit GPS pair /
default-today `elif` chain.  Returns the resulting
`(gps_start_time, gps_end_time)` pair, or the raised error. -/
def resolveTimes (lib : TimeLib) (startOfWeek : Option Int) (o : TimeOpts) :
    Except PyStr (Int × Int) :=
  if 1 < timeOptCount o ∧
      ¬(truthyOptInt o.gpsStartTime = true ∧ truthyOptInt o.gpsEndTime = true) then
    .error conflictMsg
  else if truthyOptStr o.day = true then
    match lib.parseYmd (o.day.getD []) with
    | none => .error dayMalformedMsg
    | some d => .ok (lib.utcToGps d, lib.utcToGps (d + 1))
  else if truthyOptStr o.week = true then
    match lib.parseYmd (o.week.getD []) with
    | none => .error weekMalformedMsg
    | some w =>
      match startOfWeek with
      | some wd =>
        if wd ≠ lib.weekday w then .error weekStartMsg
        else .ok (lib.utcToGps w, lib.utcToGps (w + 7))
      | none => .ok (lib.utcToGps w, lib.utcToGps (w + 7))
  else if truthyOptStr o.month = true then
    match lib.parseYm (o.month.getD []) with
    | none => .error monthMalformedMsg
    | some m => .ok (lib.utcToGps m, lib.utcToGps (lib.addMonths m))
  else if truthyOptStr o.year = true then
    match lib.parseY (o.year.getD []) with
    | none => .error yearMalformedMsg
    | some y => .ok (lib.utcToGps y, lib.utcToGps (lib.addYears y))
  else if truthyOptInt o.gpsStartTime = true ∨ truthyOptInt o.gpsEndTime = true then
    if truthyOptInt o.gpsStartTime = true ∧ truthyOptInt o.gpsEndTime = true then
      .ok (o.gpsStartTime.getD 0, o.gpsEndTime.getD 0)
    else .error bothGpsMsg
  else
    .ok (lib.utcToGps lib.today, lib.utcToGps (lib.today + 1))

/-- A concrete instantiation of the external time services, used to evaluate
the resolution logic on concrete inputs. -/
def exTimeLib : TimeLib where
  parseYmd := fun _ => some 100
  parseYm := fun _ => some 200
  parseY := fun _ => some 300
  weekday := fun _ => 0
  utcToGps := fun d => d
  addMonths := fun d => d + 1
  addYears := fun d => d + 1
  today := 0

/-- C1 counterexample: supplying both `--day` and `--week` is two time-range
forms, yet resolution completes normally with no option error (the conflict
count of line 135 ignores `--week` and `--year`); the `--day` branch wins. -/
theorem C1_counterexample :
    (TimeOpts.mk (some (pys "20150101")) (some (pys "20150105")) none none none none).day.isSome
        = true ∧
    (TimeOpts.mk (some (pys "20150101")) (some (pys "20150105")) none none none none).week.isSome
        = true ∧
    resolveTimes exTimeLib none
        (TimeOpts.mk (some (pys "20150101")) (some (pys "20150105")) none none none none)
      = .ok (100, 101) := by
  refine ⟨rfl, rfl, ?_⟩
  rfl

/-- C1 (amended): whenever more than one of `--day`, `--month`,
`--gps-start-time`, `--gps-end-time` is supplied and the GPS flags are not
both supplied with nonzero values, resolution raises the option-conflict
error before any GPS time is computed (the result is this error for every
choice of the external time library). -/
theorem C1_conflict_check (lib : TimeLib) (startOfWeek : Option Int) (o : TimeOpts)
    (h1 : 1 < timeOptCount o)
    (h2 : ¬(truthyOptInt o.gpsStartTime = true ∧ truthyOptInt o.gpsEndTime = true)) :
    resolveTimes lib startOfWeek o = .error conflictMsg := by
  unfold resolveTimes
  rw [if_pos ⟨h1, h2⟩]

theorem C1_conflict_check_witness :
    resolveTimes exTimeLib none
        (TimeOpts.mk (some (pys "20150101")) none (some (pys "201502")) none none none)
      = .error conflictMsg :=
  C1_conflict_check exTimeLib none _ (by decide) (by decide)

/-- C2 counterexample: an explicit GPS pair with end not after start
(`--gps-start-time 100 --gps-end-time 50`) completes time-range resolution
with `gps_end_time < gps_start_time`; the source never checks the order of
an explicit pair. -/
theorem C2_counterexample :
    resolveTimes exTimeLib none (TimeOpts.mk none none none none (some 100) (some 50))
        = .ok (100, 50) ∧
    ¬((100 : Int) < 50) := by
  exact ⟨rfl, by decide⟩

/-- C2 (amended): in every branch except the explicit GPS pair (day, week,
month, year, default-today), the resulting end time is strictly after the
start time, provided the external date-to-GPS conversion is strictly
monotone and the month/year steps move the date forward.  The explicit GPS
pair is passed through unchecked. -/
theorem C2_end_after_start (lib : TimeLib) (startOfWeek : Option Int) (o : TimeOpts)
    (s e : Int)
    (hmono : ∀ a b : Int, a < b → lib.utcToGps a < lib.utcToGps b)
    (hmonth : ∀ m : Int, m < lib.addMonths m)
    (hyear : ∀ y : Int, y < lib.addYears y)
    (hbranch : truthyOptStr o.day = true ∨ truthyOptStr o.week = true ∨
      truthyOptStr o.month = true ∨ truthyOptStr o.year = true ∨
      (truthyOptInt o.gpsStartTime = false ∧ truthyOptInt o.gpsEndTime = false))
    (hok : resolveTimes lib startOfWeek o = .ok (s, e)) :
    s < e := by
  unfold resolveTimes at hok
  split at hok
  · simp at hok
  · split at hok
    · split at hok
      · simp at hok
      · rename_i d _
        obtain ⟨hs, he⟩ := Prod.mk.injEq .. ▸ Except.ok.injEq .. ▸ hok
        subst hs; subst he
        exact hmono d (d + 1) (by omega)
    · split at hok
      · split at hok
        · simp at hok
        · rename_i w _
          split at hok
          · split at hok
            · simp at hok
            · obtain ⟨hs, he⟩ := Prod.mk.injEq .. ▸ Except.ok.injEq .. ▸ hok
              subst hs; subst he
              exact hmono w (w + 7) (by omega)
          · obtain ⟨hs, he⟩ := Prod.mk.injEq .. ▸ Except.ok.injEq .. ▸ hok
            subst hs; subst he
            exact hmono w (w + 7) (by omega)
      · split at hok
        · split at hok
          · simp at hok
          · rename_i m _
            obtain ⟨hs, he⟩ := Prod.mk.injEq .. ▸ Except.ok.injEq .. ▸ hok
            subst hs; subst he
            exact hmono m (lib.addMonths m) (hmonth m)
        · split at hok
          · split at hok
            · simp at hok
            · rename_i y _
              obtain ⟨hs, he⟩ := Prod.mk.injEq .. ▸ Except.ok.injEq .. ▸ hok
              subst hs; subst he
              exact hmono y (lib.addYears y) (hyear y)
          · split at hok
            · rename_i hday hweek hmonthf hyearf hgps
              exfalso
              rcases hbranch with h | h | h | h | ⟨h5, h6⟩
              · exact hday h
              · exact hweek h
              · exact hmonthf h
              · exact hyearf h
              · rcases hgps with h | h
                · rw [h5] at h; exact Bool.false_ne_true h
                · rw [h6] at h; exact Bool.false_ne_true h
            · rename_i htoday
              obtain ⟨hs, he⟩ := Prod.mk.injEq .. ▸ Except.ok.injEq .. ▸ hok
              subst hs; subst he
              exact hmono lib.today (lib.today + 1) (by omega)

theorem C2_end_after_start_witness :
    resolveTimes exTimeLib none
        (TimeOpts.mk (some (pys "20150101")) none none none none none) = .ok (100, 101) ∧
    (100 : Int) < 101 :=
  ⟨rfl, C2_end_after_start exTimeLib none
    (TimeOpts.mk (some (pys "20150101")) none none none none none) 100 101
    (fun _ _ h => h) (fun m => lt_add_one m) (fun y => lt_add_one y)
    (Or.inl (by decide)) rfl⟩

/-!
Configuration model (`GWSummConfigParser` as used by `__main__.py`).

A configuration is an ordered list of named sections, each an ordered list
of `key = value` options (`optionxform = str`, so keys keep their case; the
colon separator is disabled, lines 40-41).  Section names are unique, as in
`ConfigParser`.
-/

/-- Ordered option list of one section. -/
abbrev COptions := List (PyStr × PyStr)

/-- Ordered section list of a parsed configuration. -/
abbrev CConfig := List (PyStr × COptions)

/-- The section-name list, `config.sections()`. -/
def sectionsOf (c : CConfig) : List PyStr := c.map Prod.fst

/-- Look up a section by name. -/
def lookupSection : CConfig → PyStr → Option COptions
  | [], _ => none
  | (n, o) :: rest, m => if n = m then some o else lookupSection rest m

/-- Look up an option by key inside a section. -/
def lookupOpt : COptions → PyStr → Option PyStr
  | [], _ => none
  | (k, v) :: rest, m => if k = m then some v else lookupOpt rest m

/-- `ConfigParser.add_section`: raises `DuplicateSectionError` when the name
already exists, otherwise appends an empty section. -/
def addSection (c : CConfig) (n : PyStr) : Except PyStr CConfig :=
  if n ∈ sectionsOf c then .error (pys "DuplicateSectionError: " ++ n)
  else .ok (c ++ [(n, [])])

/-- Replace the value of a key, or append the pair when the key is new. -/
def setOptIn : COptions → PyStr → PyStr → COptions
  | [], k, v => [(k, v)]
  | (k0, v0) :: rest, k, v =>
    if k0 = k then (k, v) :: rest else (k0, v0) :: setOptIn rest k v

/-- `ConfigParser.set` on an existing section (the expansion loop only sets
options in sections it has just added). -/
def setOpt : CConfig → PyStr → PyStr → PyStr → CConfig
  | [], _, _, _ => []
  | (n0, o) :: rest, n, k, v =>
    if n0 = n then (n, setOptIn o k v) :: rest else (n0, o) :: setOpt rest n k v

/-- The section filter of `__main__.py` line 249:
`re.match('channels[-\s]', section)`. -/
def isChannelGroup (n : PyStr) : Bool :=
  match n with
  | 'c' :: 'h' :: 'a' :: 'n' :: 'n' :: 'e' :: 'l' :: 's' :: c :: _ =>
    c == '-' || c.isWhitespace
  | _ => false

/-- One iteration of the inner `for name in names` loop of `__main__.py`
lines 255-258: `config.add_section(name)` (which can raise), then
`config.set(name, key, val)` for every non-`channels` key of the group. -/
def expandStep (rest : COptions) (cfg : CConfig) (name : PyStr) : Except PyStr CConfig :=
  match addSection cfg name with
  | .error e => .error e
  | .ok cfg2 => .ok (rest.foldl (fun c3 kv => setOpt c3 name kv.1 kv.2) cfg2)

/-- Expansion of one channel-group section, `__main__.py` lines 250-258.
Modelled from the spec: `GWSummConfigParser.nditems` (defined in
`gwsumm.config`, which is not under `src/`) returns the section's own
option pairs, which the loop turns into a dict, popping the `channels` key
(raising `NoOptionError` when it is absent) and copying every remaining key
into one new section per comma-separated channel name. -/
def expandGroup (c : CConfig) (sect : PyStr) : Except PyStr CConfig :=
  match lookupSection c sect with
  | none => .ok c
  | some items =>
    match lookupOpt items (pys "channels") with
    | none => .error (pys "NoOptionError: channels")
    | some v =>
      (splitOnChar ',' v).foldlM
        (expandStep (items.filter (fun kv => kv.1 ≠ pys "channels"))) c

/-- The channel-group expansion loop of `__main__.py` lines 248-258: the
snapshot of `config.sections()` is filtered by the group pattern and each
matching section is expanded in turn. -/
def expandChannelGroups (c : CConfig) : Except PyStr CConfig :=
  ((sectionsOf c).filter isChannelGroup).foldlM expandGroup c

theorem sectionsOf_append (c1 c2 : CConfig) :
    sectionsOf (c1 ++ c2) = sectionsOf c1 ++ sectionsOf c2 := by
  simp [sectionsOf]

theorem lookupSection_append_not_mem (c1 c2 : CConfig) (n : PyStr)
    (h : n ∉ sectionsOf c1) :
    lookupSection (c1 ++ c2) n = lookupSection c2 n := by
  induction c1 with
  | nil => rfl
  | cons s c1 ih =>
    obtain ⟨m, o⟩ := s
    have hmn : m ≠ n := by
      intro he; exact h (by simp [sectionsOf, he])
    simp only [List.cons_append, lookupSection, if_neg hmn]
    exact ih (fun hm => h (by simp [sectionsOf] at hm ⊢; exact Or.inr hm))

theorem setOptIn_fresh : ∀ (o : COptions) (k v : PyStr), k ∉ o.map Prod.fst →
    setOptIn o k v = o ++ [(k, v)] := by
  intro o
  induction o with
  | nil => intro k v _; rfl
  | cons kv o ih =>
    intro k v h
    obtain ⟨k0, v0⟩ := kv
    have hk : k0 ≠ k := by intro he; exact h (by simp [he])
    simp only [setOptIn, if_neg hk, List.cons_append, List.cons.injEq, true_and]
    exact ih k v (fun hm => h (by simp at hm ⊢; exact Or.inr hm))

theorem foldl_setOptIn_nodup : ∀ (l acc : COptions),
    (∀ k ∈ l.map Prod.fst, k ∉ acc.map Prod.fst) → (l.map Prod.fst).Nodup →
    l.foldl (fun o kv => setOptIn o kv.1 kv.2) acc = acc ++ l := by
  intro l
  induction l with
  | nil => intro acc _ _; simp
  | cons kv l ih =>
    intro acc h hnd
    obtain ⟨k, v⟩ := kv
    simp only [List.foldl_cons]
    rw [setOptIn_fresh acc k v (h k (by simp))]
    rw [ih (acc ++ [(k, v)])
      (by
        intro k2 hk2 hmem
        simp only [List.map_append, List.mem_append] at hmem
        rcases hmem with hm | hm
        · exact h k2 (by simp at hk2 ⊢; exact Or.inr hk2) hm
        · simp at hm
          subst hm
          simp only [List.map_cons, List.nodup_cons] at hnd
          exact hnd.1 hk2)
      (by simp only [List.map_cons, List.nodup_cons] at hnd; exact hnd.2)]
    simp

theorem setOpt_last (c1 : CConfig) (n : PyStr) (o : COptions) (k v : PyStr)
    (h : n ∉ sectionsOf c1) :
    setOpt (c1 ++ [(n, o)]) n k v = c1 ++ [(n, setOptIn o k v)] := by
  induction c1 with
  | nil => simp [setOpt]
  | cons s c1 ih =>
    obtain ⟨m, p⟩ := s
    have hmn : m ≠ n := by intro he; exact h (by simp [sectionsOf, he])
    simp only [List.cons_append, setOpt, if_neg hmn, List.cons.injEq, true_and]
    exact ih (fun hm => h (by simp [sectionsOf] at hm ⊢; exact Or.inr hm))

theorem foldl_setOpt_last : ∀ (rest : COptions) (c1 : CConfig) (n : PyStr) (o : COptions),
    n ∉ sectionsOf c1 →
    rest.foldl (fun c3 kv => setOpt c3 n kv.1 kv.2) (c1 ++ [(n, o)]) =
      c1 ++ [(n, rest.foldl (fun o2 kv => setOptIn o2 kv.1 kv.2) o)] := by
  intro rest
  induction rest with
  | nil => intro c1 n o _; rfl
  | cons kv rest ih =>
    intro c1 n o h
    simp only [List.foldl_cons]
    rw [setOpt_last c1 n o kv.1 kv.2 h]
    exact ih c1 n (setOptIn o kv.1 kv.2) h

theorem expandStep_ok (rest : COptions) (cfg : CConfig) (name : PyStr)
    (h : name ∉ sectionsOf cfg) :
    expandStep rest cfg name =
      .ok (cfg ++ [(name, rest.foldl (fun o kv => setOptIn o kv.1 kv.2) [])]) := by
  unfold expandStep addSection
  rw [if_neg h]
  simp only
  rw [foldl_setOpt_last rest cfg name [] h]

theorem foldlM_expandStep (rest : COptions) : ∀ (names : List PyStr) (cfg : CConfig),
    (∀ n ∈ names, n ∉ sectionsOf cfg) → names.Nodup →
    names.foldlM (expandStep rest) cfg =
      .ok (cfg ++ names.map
        (fun n => (n, rest.foldl (fun o kv => setOptIn o kv.1 kv.2) []))) := by
  intro names
  induction names with
  | nil => intro cfg _ _; simp [List.foldlM, pure, Except.pure]
  | cons n names ih =>
    intro cfg h hnd
    rw [List.foldlM_cons, expandStep_ok rest cfg n (h n (by simp))]
    have hbind : ∀ (x : CConfig) (f : CConfig → Except PyStr CConfig),
        (Except.ok x : Except PyStr CConfig) >>= f = f x := fun _ _ => rfl
    rw [hbind]
    rw [ih (cfg ++ [(n, rest.foldl (fun o kv => setOptIn o kv.1 kv.2) [])])
      (by
        intro m hm hmem
        rw [sectionsOf_append] at hmem
        simp only [List.mem_append] at hmem
        rcases hmem with h2 | h2
        · exact h m (by simp [hm]) h2
        · simp [sectionsOf] at h2
          subst h2
          simp only [List.nodup_cons] at hnd
          exact hnd.1 hm)
      (by simp only [List.nodup_cons] at hnd; exact hnd.2)]
    simp

/-- C3: expanding a configuration that holds one channel-group section
`g` (matching `channels[-\s]`) with a `channels` list and other shared keys
appends, for each listed name, one new section holding exactly the other
keys of the group with their values; the original sections are untouched.
The hypotheses state that the group names are fresh and pairwise distinct
(otherwise `add_section` raises `DuplicateSectionError`) and that the other
sections are not channel groups. -/
theorem C3_channel_group_expansion
    (base : CConfig) (g : PyStr) (items : COptions) (v : PyStr)
    (hb : ∀ s ∈ sectionsOf base, isChannelGroup s = false)
    (hg : isChannelGroup g = true)
    (hgf : g ∉ sectionsOf base)
    (hv : lookupOpt items (pys "channels") = some v)
    (hnd : (items.map Prod.fst).Nodup)
    (hfresh : ∀ n ∈ splitOnChar ',' v, n ∉ sectionsOf (base ++ [(g, items)]))
    (hndn : (splitOnChar ',' v).Nodup) :
    expandChannelGroups (base ++ [(g, items)]) =
      .ok ((base ++ [(g, items)]) ++
        (splitOnChar ',' v).map
          (fun n => (n, items.filter (fun kv => kv.1 ≠ pys "channels")))) := by
  have hsec : sectionsOf (base ++ [(g, items)]) = sectionsOf base ++ [g] := by
    rw [sectionsOf_append]; rfl
  have hfilter : (sectionsOf (base ++ [(g, items)])).filter isChannelGroup = [g] := by
    rw [hsec, List.filter_append]
    rw [List.filter_eq_nil_iff.mpr (by intro a ha; simp [hb a ha])]
    simp [hg]
  have hlk : lookupSection (base ++ [(g, items)]) g = some items := by
    rw [lookupSection_append_not_mem base [(g, items)] g hgf]
    simp [lookupSection]
  unfold expandChannelGroups
  rw [hfilter]
  have hone : ∀ (c : CConfig), [g].foldlM expandGroup c = expandGroup c g := by
    intro c
    rw [List.foldlM_cons]
    show expandGroup c g >>= (fun c2 => [].foldlM expandGroup c2) = _
    cases expandGroup c g <;> rfl
  rw [hone]
  unfold expandGroup
  simp only [hlk, hv]
  have hrestnd : ((items.filter (fun kv => kv.1 ≠ pys "channels")).map Prod.fst).Nodup :=
    List.Nodup.sublist (List.Sublist.map Prod.fst (List.filter_sublist items)) hnd
  rw [foldlM_expandStep _ _ _ hfresh hndn]
  rw [foldl_setOptIn_nodup _ [] (by simp) hrestnd]
  simp

/-- C3 witness: `channels = A,B,C` with shared key `x = 1` yields three new
sections `A`, `B`, `C`, each holding exactly `x = 1`. -/
theorem C3_channel_group_expansion_witness :
    expandChannelGroups
        [(pys "channels-foo", [(pys "channels", pys "A,B,C"), (pys "x", pys "1")])] =
      .ok [(pys "channels-foo", [(pys "channels", pys "A,B,C"), (pys "x", pys "1")]),
           (pys "A", [(pys "x", pys "1")]),
           (pys "B", [(pys "x", pys "1")]),
           (pys "C", [(pys "x", pys "1")])] := by
  have h := C3_channel_group_expansion []
    (pys "channels-foo")
    [(pys "channels", pys "A,B,C"), (pys "x", pys "1")]
    (pys "A,B,C")
    (by intro s hs; simp [sectionsOf] at hs)
    (by decide) (by decide) (by decide) (by decide) (by decide) (by decide)
  exact h

/-!
Tab tree building (`__main__.py` lines 298-318).

`SummaryTab.from_ini` lives in `gwsumm.tabs`, which is not under `src/`;
only the tab's name and its declared parent name matter for the linking
logic of `__main__.py`, so a tab is embedded as that pair.
-/

structure STab where
  name : PyStr
  parent : Option PyStr
deriving DecidableEq

/-- Python truthiness of a tab's `parent` attribute (`None` or `''` falsy). -/
def truthyParent : Option PyStr → Bool
  | none => false
  | some s => !s.isEmpty

/-- The `tabs` dict of pass 1: root-tab name, mapped to the children
registered so far (the root object itself is the `alltabs` entry of that
name). -/
abbrev RootMap := List (PyStr × List STab)

def lookupRoot : RootMap → PyStr → Option (List STab)
  | [], _ => none
  | (n, cs) :: rest, m => if n = m then some cs else lookupRoot rest m

/-- Python dict assignment `d[n] = v`: replace in place or append. -/
def dictInsert : RootMap → PyStr → List STab → RootMap
  | [], n, v => [(n, v)]
  | (n0, v0) :: rest, n, v =>
    if n0 = n then (n, v) :: rest else (n0, v0) :: dictInsert rest n v

/-- Pass 1, `__main__.py` lines 305-308: collect every tab with a falsy
declared parent into a name-indexed mapping of roots. -/
def collectRoots (tabs : List STab) : RootMap :=
  tabs.foldl
    (fun m t => if truthyParent t.parent then m else dictInsert m t.name []) []

/-- Pass 2 single step, `__main__.py` lines 309-312: for a tab with a truthy
declared parent, `tabs[tab.parent]` (raising `KeyError` when the name is not
a root) and then `tab.parent.add_child(tab)`.  Modelled from the spec:
`add_child` (in `gwsumm.tabs`, not under `src/`) registers the tab as a
child of the resolved root, embedded here as appending to the root's child
list. -/
def addChildStep (m : RootMap) (t : STab) : Except PyStr RootMap :=
  match t.parent with
  | none => .ok m
  | some p =>
    if p.isEmpty then .ok m
    else match lookupRoot m p with
      | none => .error (pys "KeyError: " ++ p)
      | some cs => .ok (dictInsert m p (cs ++ [t]))

/-- The two-pass tab linking of `__main__.py` lines 305-312. -/
def linkTabs (tabs : List STab) : Except PyStr RootMap :=
  tabs.foldlM addChildStep (collectRoots tabs)

theorem dictInsert_mem_keys (m : RootMap) (n k : PyStr) (v : List STab) :
    k ∈ (dictInsert m n v).map Prod.fst ↔ k ∈ m.map Prod.fst ∨ k = n := by
  induction m with
  | nil => simp [dictInsert]
  | cons e m ih =>
    obtain ⟨n0, v0⟩ := e
    by_cases h : n0 = n
    · subst h
      simp only [dictInsert, eq_self_iff_true, if_true, List.map_cons, List.mem_cons]
      tauto
    · simp only [dictInsert, if_neg h, List.map_cons, List.mem_cons, ih]
      tauto

theorem dictInsert_keys_of_mem (m : RootMap) (n : PyStr) (v : List STab)
    (h : n ∈ m.map Prod.fst) :
    (dictInsert m n v).map Prod.fst = m.map Prod.fst := by
  induction m with
  | nil => simp at h
  | cons e m ih =>
    obtain ⟨n0, v0⟩ := e
    by_cases h2 : n0 = n
    · subst h2; simp [dictInsert]
    · simp only [List.map_cons, List.mem_cons] at h
      rcases h with h | h
      · exact absurd h.symm h2
      · simp only [dictInsert, if_neg h2, List.map_cons, ih h]

theorem lookupRoot_eq_none_iff (m : RootMap) (n : PyStr) :
    lookupRoot m n = none ↔ n ∉ m.map Prod.fst := by
  induction m with
  | nil => simp [lookupRoot]
  | cons e m ih =>
    obtain ⟨n0, v0⟩ := e
    by_cases h : n0 = n
    · subst h; simp [lookupRoot]
    · simp [lookupRoot, if_neg h, ih, Ne.symm h]

theorem lookupRoot_dictInsert_self (m : RootMap) (n : PyStr) (v : List STab) :
    lookupRoot (dictInsert m n v) n = some v := by
  induction m with
  | nil => simp [dictInsert, lookupRoot]
  | cons e m ih =>
    obtain ⟨n0, v0⟩ := e
    by_cases h : n0 = n
    · subst h; simp [dictInsert, lookupRoot]
    · simp [dictInsert, lookupRoot, if_neg h, ih]

theorem lookupRoot_dictInsert_ne (m : RootMap) (n k : PyStr) (v : List STab)
    (h : k ≠ n) :
    lookupRoot (dictInsert m n v) k = lookupRoot m k := by
  induction m with
  | nil => simp [dictInsert, lookupRoot, Ne.symm h]
  | cons e m ih =>
    obtain ⟨n0, v0⟩ := e
    by_cases h2 : n0 = n
    · subst h2
      simp [dictInsert, lookupRoot, Ne.symm h]
    · simp [dictInsert, lookupRoot, if_neg h2, ih]

theorem addChildStep_ok_keys (m m2 : RootMap) (t : STab)
    (h : addChildStep m t = .ok m2) :
    m2.map Prod.fst = m.map Prod.fst := by
  cases hp : t.parent with
  | none =>
    simp only [addChildStep, hp] at h
    injection h with h2
    rw [← h2]
  | some p =>
    simp only [addChildStep, hp] at h
    by_cases he : p.isEmpty = true
    · rw [if_pos he] at h
      injection h with h2
      rw [← h2]
    · rw [if_neg he] at h
      cases hl : lookupRoot m p with
      | none =>
        rw [hl] at h
        exact Except.noConfusion h
      | some cs =>
        rw [hl] at h
        injection h with h2
        rw [← h2]
        exact dictInsert_keys_of_mem m p _
          (by
            by_contra hmem
            rw [← lookupRoot_eq_none_iff] at hmem
            rw [hmem] at hl
            cases hl)

theorem collectRoots_keys (tabs : List STab) (n : PyStr) :
    n ∈ (collectRoots tabs).map Prod.fst ↔
      ∃ r ∈ tabs, truthyParent r.parent = false ∧ r.name = n := by
  have hgen : ∀ (l : List STab) (acc : RootMap),
      n ∈ (l.foldl
        (fun m t => if truthyParent t.parent then m else dictInsert m t.name []) acc).map
          Prod.fst ↔
      n ∈ acc.map Prod.fst ∨ ∃ r ∈ l, truthyParent r.parent = false ∧ r.name = n := by
    intro l
    induction l with
    | nil => intro acc; simp
    | cons r l ih =>
      intro acc
      simp only [List.foldl_cons]
      by_cases h : truthyParent r.parent
      · rw [if_pos h, ih]
        simp only [List.mem_cons]
        constructor
        · rintro (h2 | ⟨u, hu, h3, h4⟩)
          · exact Or.inl h2
          · exact Or.inr ⟨u, Or.inr hu, h3, h4⟩
        · rintro (h2 | ⟨u, hu, h3, h4⟩)
          · exact Or.inl h2
          · rcases hu with hu | hu
            · subst hu; rw [h3] at h; cases h
            · exact Or.inr ⟨u, hu, h3, h4⟩
      · rw [if_neg h, ih]
        rw [dictInsert_mem_keys]
        simp only [List.mem_cons]
        constructor
        · rintro ((h2 | h2) | ⟨u, hu, h3, h4⟩)
          · exact Or.inl h2
          · exact Or.inr ⟨r, Or.inl rfl, by simpa using h, h2.symm⟩
          · exact Or.inr ⟨u, Or.inr hu, h3, h4⟩
        · rintro (h2 | ⟨u, hu, h3, h4⟩)
          · exact Or.inl (Or.inl h2)
          · rcases hu with hu | hu
            · subst hu; exact Or.inl (Or.inr h4.symm)
            · exact Or.inr ⟨u, hu, h3, h4⟩
  rw [collectRoots, hgen]
  simp

theorem lookupRoot_isSome_of_mem (m : RootMap) (n : PyStr)
    (h : n ∈ m.map Prod.fst) : ∃ cs, lookupRoot m n = some cs := by
  cases hl : lookupRoot m n with
  | none => rw [lookupRoot_eq_none_iff] at hl; exact absurd h hl
  | some cs => exact ⟨cs, rfl⟩

theorem pass2_pre_ok : ∀ (l : List STab) (m : RootMap),
    (∀ u ∈ l, ∀ q, u.parent = some q → q.isEmpty = false → q ∈ m.map Prod.fst) →
    ∃ m2, l.foldlM addChildStep m = .ok m2 ∧ m2.map Prod.fst = m.map Prod.fst := by
  intro l
  induction l with
  | nil => intro m _; exact ⟨m, rfl, rfl⟩
  | cons u l ih =>
    intro m h
    have hstep : ∃ m1, addChildStep m u = .ok m1 := by
      cases hp : u.parent with
      | none => exact ⟨m, by simp [addChildStep, hp]⟩
      | some q =>
        by_cases he : q.isEmpty = true
        · exact ⟨m, by simp [addChildStep, hp, he]⟩
        · have hq := h u (by simp) q hp (by simpa using he)
          obtain ⟨cs, hcs⟩ := lookupRoot_isSome_of_mem m q hq
          exact ⟨dictInsert m q (cs ++ [u]), by simp [addChildStep, hp, he, hcs]⟩
    obtain ⟨m1, hm1⟩ := hstep
    have hkeys := addChildStep_ok_keys m m1 u hm1
    obtain ⟨m2, hm2, hk2⟩ := ih m1 (by
      intro u2 hu2 q hq hqe
      rw [hkeys]
      exact h u2 (by simp [hu2]) q hq hqe)
    refine ⟨m2, ?_, hk2.trans hkeys⟩
    rw [List.foldlM_cons, hm1]
    exact hm2

/-- C4: when a tab declares a truthy parent name that is not the name of
any root (any tab with a falsy declared parent), and every earlier tab's
declared parent does resolve, tab linking stops with the `KeyError` for
that name; no result mapping (hence no new root for the name) is produced.
A run whose first unresolvable parent is an earlier tab aborts the same
way, with that tab's `KeyError`. -/
theorem linkTabs_first_offender_error (pre post : List STab) (t : STab) (p : PyStr)
    (hp : t.parent = some p) (hne : p.isEmpty = false)
    (hroot : ∀ r ∈ pre ++ t :: post, truthyParent r.parent = false → r.name ≠ p)
    (hpre : ∀ u ∈ pre, ∀ q, u.parent = some q → q.isEmpty = false →
      ∃ r ∈ pre ++ t :: post, truthyParent r.parent = false ∧ r.name = q) :
    linkTabs (pre ++ t :: post) = .error (pys "KeyError: " ++ p) := by
  have hpmem : p ∉ (collectRoots (pre ++ t :: post)).map Prod.fst := by
    rw [collectRoots_keys]
    rintro ⟨r, hr, h1, h2⟩
    exact hroot r hr h1 h2
  have hprekeys : ∀ u ∈ pre, ∀ q, u.parent = some q → q.isEmpty = false →
      q ∈ (collectRoots (pre ++ t :: post)).map Prod.fst := by
    intro u hu q hq hqe
    rw [collectRoots_keys]
    exact hpre u hu q hq hqe
  obtain ⟨m2, hm2, hk2⟩ := pass2_pre_ok pre (collectRoots (pre ++ t :: post)) hprekeys
  unfold linkTabs
  rw [List.foldlM_append, hm2]
  show (t :: post).foldlM addChildStep m2 = _
  rw [List.foldlM_cons]
  have hstep : addChildStep m2 t = .error (pys "KeyError: " ++ p) := by
    have hnone : lookupRoot m2 p = none := by
      rw [lookupRoot_eq_none_iff, hk2]; exact hpmem
    simp [addChildStep, hp, hne, hnone]
  rw [hstep]
  rfl

theorem linkTabs_first_offender_error_example :
    linkTabs [STab.mk (pys "A") none, STab.mk (pys "B") (some (pys "Nonexistent"))] =
      .error (pys "KeyError: " ++ pys "Nonexistent") :=
  linkTabs_first_offender_error [STab.mk (pys "A") none] []
    (STab.mk (pys "B") (some (pys "Nonexistent"))) (pys "Nonexistent")
    rfl (by decide) (by decide)
    (by
      intro u hu q hq hqe
      simp only [List.mem_singleton] at hu
      subst hu
      exact Option.noConfusion hq)

theorem addChildStep_preserves (m m2 : RootMap) (u : STab) (n : PyStr)
    (cs : List STab) (h : addChildStep m u = .ok m2)
    (hl : lookupRoot m n = some cs) :
    ∃ d, lookupRoot m2 n = some (cs ++ d) := by
  cases hp : u.parent with
  | none =>
    simp only [addChildStep, hp] at h
    injection h with h2
    exact ⟨[], by rw [← h2]; simpa using hl⟩
  | some q =>
    simp only [addChildStep, hp] at h
    by_cases he : q.isEmpty = true
    · rw [if_pos he] at h
      injection h with h2
      exact ⟨[], by rw [← h2]; simpa using hl⟩
    · rw [if_neg he] at h
      cases hq : lookupRoot m q with
      | none =>
        rw [hq] at h
        exact Except.noConfusion h
      | some cs0 =>
        rw [hq] at h
        injection h with h2
        by_cases hnq : n = q
        · rw [hnq, hq] at hl
          injection hl with h3
          refine ⟨[u], ?_⟩
          rw [hnq, ← h2, h3]
          exact lookupRoot_dictInsert_self m q (cs ++ [u])
        · exact ⟨[], by
            rw [← h2, lookupRoot_dictInsert_ne m q n _ hnq]
            simpa using hl⟩

theorem foldlM_addChild_preserves : ∀ (l : List STab) (m m2 : RootMap) (n : PyStr)
    (cs : List STab), l.foldlM addChildStep m = .ok m2 →
    lookupRoot m n = some cs → ∃ d, lookupRoot m2 n = some (cs ++ d) := by
  intro l
  induction l with
  | nil =>
    intro m m2 n cs h hl
    injection h with h2
    exact ⟨[], by rw [← h2]; simpa using hl⟩
  | cons u l ih =>
    intro m m2 n cs h hl
    rw [List.foldlM_cons] at h
    cases hstep : addChildStep m u with
    | error e =>
      rw [hstep] at h
      exact Except.noConfusion h
    | ok m1 =>
      rw [hstep] at h
      obtain ⟨d1, hd1⟩ := addChildStep_preserves m m1 u n cs hstep hl
      obtain ⟨d2, hd2⟩ := ih m1 m2 n (cs ++ d1) h hd1
      exact ⟨d1 ++ d2, by rw [hd2, List.append_assoc]⟩

theorem pass2_registers : ∀ (l : List STab) (m m2 : RootMap),
    l.foldlM addChildStep m = .ok m2 →
    ∀ t ∈ l, ∀ p, t.parent = some p → p.isEmpty = false →
    t ∈ (lookupRoot m2 p).getD [] := by
  intro l
  induction l with
  | nil => intro m m2 _ t ht; simp at ht
  | cons u l ih =>
    intro m m2 h t ht p hp hpe
    rw [List.foldlM_cons] at h
    cases hstep : addChildStep m u with
    | error e =>
      rw [hstep] at h
      exact Except.noConfusion h
    | ok m1 =>
      rw [hstep] at h
      rcases List.mem_cons.mp ht with rfl | htl
      · simp only [addChildStep, hp] at hstep
        rw [if_neg (by simp [hpe])] at hstep
        cases hq : lookupRoot m p with
        | none =>
          rw [hq] at hstep
          exact Except.noConfusion hstep
        | some cs =>
          rw [hq] at hstep
          injection hstep with h2
          have hm1 : lookupRoot m1 p = some (cs ++ [t]) := by
            rw [← h2]
            exact lookupRoot_dictInsert_self m p (cs ++ [t])
          obtain ⟨d, hd⟩ := foldlM_addChild_preserves l m1 m2 p (cs ++ [t]) h hm1
          rw [hd]
          simp
      · exact ih m1 m2 h t htl p hp hpe

/-- C5: after tab linking succeeds, every tab with a truthy declared parent
is registered as a child of the root of that name; and linking the spec's
example pair makes `Summary` the single root with exactly one child,
`Child`. -/
theorem C5_children_registered (tabs : List STab) (m : RootMap)
    (hok : linkTabs tabs = .ok m)
    (t : STab) (ht : t ∈ tabs) (p : PyStr) (hp : t.parent = some p)
    (hpe : p.isEmpty = false) :
    t ∈ (lookupRoot m p).getD [] ∧
    linkTabs [STab.mk (pys "Summary") none,
              STab.mk (pys "Child") (some (pys "Summary"))] =
      .ok [(pys "Summary", [STab.mk (pys "Child") (some (pys "Summary"))])] :=
  ⟨pass2_registers tabs (collectRoots tabs) m hok t ht p hp hpe, rfl⟩

theorem C5_children_registered_witness :
    (STab.mk (pys "Child") (some (pys "Summary"))) ∈
      (lookupRoot [(pys "Summary", [STab.mk (pys "Child") (some (pys "Summary"))])]
        (pys "Summary")).getD [] :=
  (C5_children_registered
    [STab.mk (pys "Summary") none, STab.mk (pys "Child") (some (pys "Summary"))]
    [(pys "Summary", [STab.mk (pys "Child") (some (pys "Summary"))])]
    rfl
    (STab.mk (pys "Child") (some (pys "Summary"))) (by decide)
    (pys "Summary") rfl (by decide)).1

/-!
Tab display sort (`__main__.py` lines 317-318):
`tabs.sort(key=lambda t: t.name == 'Summary' and '_' or t.name.lower())`.
Python `list.sort` is a stable sort by the key under lexicographic string
comparison; a stable sort by a total preorder is unique, so it is embedded
as stable insertion sort over the same key relation.
-/

/-- The sort key of line 318: `'_'` for a tab literally named `Summary`,
otherwise the lowercased name. -/
def tabKey (t : STab) : PyStr :=
  if t.name = pys "Summary" then pys "_" else lowerStr t.name

def tabRel (a b : STab) : Prop := lexLe (tabKey a) (tabKey b) = true

instance : DecidableRel tabRel := fun a b => by unfold tabRel; infer_instance

instance : IsTotal STab tabRel :=
  ⟨fun a b => by
    rcases Bool.or_eq_true_iff.mp (lexLe_total (tabKey a) (tabKey b)) with h | h
    · exact Or.inl h
    · exact Or.inr h⟩

instance : IsTrans STab tabRel :=
  ⟨fun a b c => lexLe_trans (tabKey a) (tabKey b) (tabKey c)⟩

/-- The display sort of `__main__.py` lines 317-318. -/
def sortTabs (l : List STab) : List STab := List.insertionSort tabRel l

/-- C6 counterexample: a root tab named `1Tab` sorts before `Summary`,
because the key of `Summary` is `'_'` (0x5F) while `1Tab` lowercases to
`1tab`, which starts with `'1'` (0x31) and so compares below `'_'`; the
first tab of the sorted list is not the one named `Summary`. -/
theorem C6_counterexample :
    sortTabs [STab.mk (pys "Summary") none, STab.mk (pys "1Tab") none] =
      [STab.mk (pys "1Tab") none, STab.mk (pys "Summary") none] ∧
    (STab.mk (pys "1Tab") none).name ≠ pys "Summary" := by
  exact ⟨by decide, by decide⟩

/-- C6 (amended): the display sort orders tabs by the key that is `'_'` for
a tab literally named `Summary` and the lowercased name otherwise: the
output is a permutation of the input, pairwise nondecreasing in that key.
Since `'_'` precedes every letter, `Summary` sorts before any tab whose
name starts with a letter — `["Zeta", "Summary", "Alpha"]` sorts to
`["Summary", "Alpha", "Zeta"]` — but a tab whose lowercased name compares
below `'_'` (e.g. starting with a digit) sorts before `Summary`. -/
theorem C6_sort_by_key :
    sortTabs [STab.mk (pys "Zeta") none, STab.mk (pys "Summary") none,
              STab.mk (pys "Alpha") none] =
      [STab.mk (pys "Summary") none, STab.mk (pys "Alpha") none,
       STab.mk (pys "Zeta") none] ∧
    (∀ l : List STab, (sortTabs l).Perm l) ∧
    (∀ l : List STab, (sortTabs l).Sorted tabRel) :=
  ⟨by decide, fun l => List.perm_insertionSort tabRel l,
    fun l => List.sorted_insertionSort tabRel l⟩

/-!
Tab processing loop (`__main__.py` lines 320-321):
`for tab in alltabs: tab.process(config=config)`.
`SummaryTab.process` is polymorphic and lives in `gwsumm.tabs` (not under
`src/`); the loop's observable behaviour is the sequence of `process`
invocations it makes, embedded as the list of (tab, configuration
argument) call pairs in iteration order.
-/

def processAll (alltabs : List STab) (cfg : CConfig) : List (STab × CConfig) :=
  alltabs.foldl (fun acc t => acc ++ [(t, cfg)]) []

theorem processAll_eq_map (alltabs : List STab) (cfg : CConfig) :
    processAll alltabs cfg = alltabs.map (fun t => (t, cfg)) := by
  have hgen : ∀ (l : List STab) (acc : List (STab × CConfig)),
      l.foldl (fun acc t => acc ++ [(t, cfg)]) acc =
        acc ++ l.map (fun t => (t, cfg)) := by
    intro l
    induction l with
    | nil => intro acc; simp
    | cons t l ih =>
      intro acc
      simp only [List.foldl_cons, List.map_cons, ih]
      simp
  rw [processAll, hgen]
  simp

/-- C9: the tab processor invokes `process` exactly once per declared tab —
the call list projects back to `alltabs` itself, in declaration order (the
flat list, not the sorted display list) — and every call receives the same
shared configuration object. -/
theorem C9_process_each_tab (alltabs : List STab) (cfg : CConfig)
    (c : STab × CConfig) (hc : c ∈ processAll alltabs cfg) :
    c.2 = cfg ∧ (processAll alltabs cfg).map Prod.fst = alltabs := by
  rw [processAll_eq_map] at hc ⊢
  constructor
  · obtain ⟨t, _, rfl⟩ := List.mem_map.mp hc
    rfl
  · rw [List.map_map]
    exact List.map_id' alltabs

theorem C9_process_each_tab_witness :
    ((STab.mk (pys "Zeta") none, ([] : CConfig)).2 = ([] : CConfig)) ∧
    (processAll [STab.mk (pys "Zeta") none, STab.mk (pys "Alpha") none]
        ([] : CConfig)).map Prod.fst =
      [STab.mk (pys "Zeta") none, STab.mk (pys "Alpha") none] :=
  C9_process_each_tab
    [STab.mk (pys "Zeta") none, STab.mk (pys "Alpha") none] []
    (STab.mk (pys "Zeta") none, []) (by decide)

/-!
HTML writing (`__main__.py` lines 327-333).

`AboutTab.build_html` and `SummaryTab.build_html` live in `gwsumm.tabs`
(not under `src/`); what the loop determines is the sequence of render
calls and the arguments each receives, embedded as a list of call records.
`aboutIndex` stands for `about.index` and `files` for `config.files`.
-/

structure RenderCall where
  page : PyStr
  css : List PyStr
  js : List PyStr
  navTabs : List STab
  aboutLink : Option PyStr
  configFiles : Option (List PyStr)
deriving DecidableEq

/-- The render calls of `__main__.py` lines 327-333: first
`about.build_html(css=css, js=javascript, tabs=tabs, config=config.files)`,
then for every declared tab
`tab.build_html(css=css, js=javascript, tabs=tabs, about=about.index)`. -/
def writeHtml (css js : List PyStr) (sortedTabs alltabs : List STab)
    (aboutIndex : PyStr) (files : List PyStr) : List RenderCall :=
  RenderCall.mk (pys "About") css js sortedTabs none (some files) ::
    alltabs.map (fun t => RenderCall.mk t.name css js sortedTabs (some aboutIndex) none)

/-- C7 counterexample: the About page's own render call does not receive a
link to the About page — it is passed the configuration-file list instead
(`config=config.files`, line 329), so its about-link argument is absent. -/
theorem C7_counterexample :
    (writeHtml [pys "style.css"] [pys "app.js"] [STab.mk (pys "Tab1") none]
        [STab.mk (pys "Tab1") none] (pys "about/index.html")
        [pys "cfg.ini"]).head? =
      some (RenderCall.mk (pys "About") [pys "style.css"] [pys "app.js"]
        [STab.mk (pys "Tab1") none] none (some [pys "cfg.ini"])) ∧
    (RenderCall.mk (pys "About") [pys "style.css"] [pys "app.js"]
        [STab.mk (pys "Tab1") none] none (some [pys "cfg.ini"])).aboutLink = none := by
  exact ⟨rfl, rfl⟩

/-- C7 (amended): every declared tab's page is rendered, with the shared
CSS and JavaScript lists, the sorted tab list as the navigation argument,
and a link to the About page; the About page is rendered with the same
CSS/JS and sorted tab list, but receives the configuration-file list in
place of an About link.  Every render call carries the shared CSS/JS and
the sorted tab list. -/
theorem C7_render_arguments (css js : List PyStr) (sortedTabs alltabs : List STab)
    (aboutIndex : PyStr) (files : List PyStr) (t : STab) (ht : t ∈ alltabs)
    (c : RenderCall) (hc : c ∈ writeHtml css js sortedTabs alltabs aboutIndex files) :
    RenderCall.mk t.name css js sortedTabs (some aboutIndex) none
        ∈ writeHtml css js sortedTabs alltabs aboutIndex files ∧
    (c.css = css ∧ c.js = js ∧ c.navTabs = sortedTabs) ∧
    (c.aboutLink = some aboutIndex ∧ c.configFiles = none ∨
      c.page = pys "About" ∧ c.aboutLink = none ∧ c.configFiles = some files) := by
  constructor
  · exact List.mem_cons_of_mem _ (List.mem_map.mpr ⟨t, ht, rfl⟩)
  · rcases List.mem_cons.mp hc with rfl | hm
    · exact ⟨⟨rfl, rfl, rfl⟩, Or.inr ⟨rfl, rfl, rfl⟩⟩
    · obtain ⟨u, _, rfl⟩ := List.mem_map.mp hm
      exact ⟨⟨rfl, rfl, rfl⟩, Or.inl ⟨rfl, rfl⟩⟩

theorem C7_render_arguments_witness :
    (RenderCall.mk (pys "Tab1") [pys "style.css"] [pys "app.js"]
        [STab.mk (pys "Tab1") none] (some (pys "about/index.html")) none
      ∈ writeHtml [pys "style.css"] [pys "app.js"] [STab.mk (pys "Tab1") none]
        [STab.mk (pys "Tab1") none] (pys "about/index.html") [pys "cfg.ini"]) ∧
    ((RenderCall.mk (pys "About") [pys "style.css"] [pys "app.js"]
        [STab.mk (pys "Tab1") none] none (some [pys "cfg.ini"])).css =
          [pys "style.css"] ∧
      (RenderCall.mk (pys "About") [pys "style.css"] [pys "app.js"]
        [STab.mk (pys "Tab1") none] none (some [pys "cfg.ini"])).js =
          [pys "app.js"] ∧
      (RenderCall.mk (pys "About") [pys "style.css"] [pys "app.js"]
        [STab.mk (pys "Tab1") none] none (some [pys "cfg.ini"])).navTabs =
          [STab.mk (pys "Tab1") none]) ∧
    ((RenderCall.mk (pys "About") [pys "style.css"] [pys "app.js"]
        [STab.mk (pys "Tab1") none] none (some [pys "cfg.ini"])).aboutLink =
          some (pys "about/index.html") ∧
      (RenderCall.mk (pys "About") [pys "style.css"] [pys "app.js"]
        [STab.mk (pys "Tab1") none] none (some [pys "cfg.ini"])).configFiles = none ∨
      (RenderCall.mk (pys "About") [pys "style.css"] [pys "app.js"]
        [STab.mk (pys "Tab1") none] none (some [pys "cfg.ini"])).page = pys "About" ∧
      (RenderCall.mk (pys "About") [pys "style.css"] [pys "app.js"]
        [STab.mk (pys "Tab1") none] none (some [pys "cfg.ini"])).aboutLink = none ∧
      (RenderCall.mk (pys "About") [pys "style.css"] [pys "app.js"]
        [STab.mk (pys "Tab1") none] none (some [pys "cfg.ini"])).configFiles =
          some [pys "cfg.ini"]) :=
  C7_render_arguments [pys "style.css"] [pys "app.js"] [STab.mk (pys "Tab1") none]
    [STab.mk (pys "Tab1") none] (pys "about/index.html") [pys "cfg.ini"]
    (STab.mk (pys "Tab1") none) (by decide)
    (RenderCall.mk (pys "About") [pys "style.css"] [pys "app.js"]
      [STab.mk (pys "Tab1") none] none (some [pys "cfg.ini"])) (by decide)

/-!
Channel registry population (`__main__.py` lines 261-275).

`gwpy.detector.Channel` is external: a channel object is embedded as its
name, a flag recording whether it came from the catalog query, the optional
`bitmask` attribute, and the dynamically set named attributes.  The catalog
lookup `Channel.query` is an external function returning `none` exactly
when it raises `ValueError` (the only exception the source catches).
-/

structure ChannelObj where
  name : PyStr
  fromQuery : Bool
  bitmask : Option (List PyStr)
  attrs : List (PyStr × PyStr)
deriving DecidableEq

/-- `Channel(section)`: a bare channel object built from the name alone. -/
def bareChannel (n : PyStr) : ChannelObj := ChannelObj.mk n false none []

/-- The `try: Channel.query(section) except ValueError: Channel(section)`
of `__main__.py` lines 264-267. -/
def getChannelFor (query : PyStr → Option ChannelObj) (s : PyStr) : ChannelObj :=
  match query s with
  | some c => c
  | none => bareChannel s

/-- Registry population for one section, `__main__.py` lines 263-267: a
section already present in `globalv.CHANNELS` is left alone; otherwise the
catalog is queried, falling back to a bare channel on `ValueError`.  The
function is total: a failed lookup never aborts the run. -/
def populateChannel (query : PyStr → Option ChannelObj)
    (registry : List (PyStr × ChannelObj)) (s : PyStr) :
    List (PyStr × ChannelObj) :=
  if s ∈ registry.map Prod.fst then registry
  else registry ++ [(s, getChannelFor query s)]

/-- C8: when the external catalog lookup for a new channel section fails
(raises `ValueError`), the run does not fail: a bare channel object built
from the name alone is registered instead and processing continues
(`populateChannel` is a total function). -/
theorem C8_channel_lookup_fallback (query : PyStr → Option ChannelObj)
    (registry : List (PyStr × ChannelObj)) (s : PyStr)
    (hq : query s = none) (hnew : s ∉ registry.map Prod.fst) :
    populateChannel query registry s = registry ++ [(s, bareChannel s)] := by
  unfold populateChannel getChannelFor
  rw [if_neg hnew, hq]

theorem C8_channel_lookup_fallback_witness :
    populateChannel (fun _ => none) [] (pys "L1:TEST-CHANNEL") =
      [(pys "L1:TEST-CHANNEL", bareChannel (pys "L1:TEST-CHANNEL"))] :=
  C8_channel_lookup_fallback (fun _ => none) [] (pys "L1:TEST-CHANNEL") rfl
    (by decide)

/-!
Channel attribute and bitmask assignment (`__main__.py` lines 268-275).

The option items of a channel section are walked in
`sorted(config.nditems(section), key=lambda x: x[0])` order — a stable sort
by the key string — and each key is first sanitised with
`re_cchar.sub('_', key.rstrip())`.  Modelled from the spec: `re_cchar` is
defined in `gwsumm.utils`, which is not under `src/`; it matches the
characters that are invalid in identifiers, so the substitution is embedded
as replacing every non-alphanumeric character of the stripped key with
`'_'` (this preserves all-digit keys and cannot turn a key containing a
letter into digits).  `eval` of an attribute value is external and passed
as the function `evalFn`.
-/

def sanitizeKey (k : PyStr) : PyStr :=
  (rstripP k).map (fun c => if c.isAlphanum then c else '_')

def itemRel (a b : PyStr × PyStr) : Prop := lexLe a.1 b.1 = true

instance : DecidableRel itemRel := fun a b => by unfold itemRel; infer_instance

instance : IsTotal (PyStr × PyStr) itemRel :=
  ⟨fun a b => by
    rcases Bool.or_eq_true_iff.mp (lexLe_total a.1 b.1) with h | h
    · exact Or.inl h
    · exact Or.inr h⟩

instance : IsTrans (PyStr × PyStr) itemRel :=
  ⟨fun a b c => lexLe_trans a.1 b.1 c.1⟩

/-- `sorted(config.nditems(section), key=lambda x: x[0])` of line 268. -/
def sortItems (items : List (PyStr × PyStr)) : List (PyStr × PyStr) :=
  List.insertionSort itemRel items

/-- One iteration of the loop body, lines 269-275: digit keys append the
raw value to the `bitmask` list (created on first use), all other keys are
set as a named attribute holding `eval(val.rstrip())`. -/
def chanStep (evalFn : PyStr → PyStr) (ch : ChannelObj) (kv : PyStr × PyStr) :
    ChannelObj :=
  let k := sanitizeKey kv.1
  if isDigits k then
    { ch with bitmask := some ((ch.bitmask.getD []) ++ [kv.2]) }
  else
    { ch with attrs := setOptIn ch.attrs k (evalFn (rstripP kv.2)) }

/-- The whole per-section loop of `__main__.py` lines 268-275. -/
def applyChannelItems (evalFn : PyStr → PyStr) (ch : ChannelObj)
    (items : List (PyStr × PyStr)) : ChannelObj :=
  (sortItems items).foldl (chanStep evalFn) ch

theorem lookupOpt_setOptIn_self : ∀ (o : COptions) (k v : PyStr),
    lookupOpt (setOptIn o k v) k = some v := by
  intro o
  induction o with
  | nil => intro k v; simp [setOptIn, lookupOpt]
  | cons kv o ih =>
    intro k v
    obtain ⟨k0, v0⟩ := kv
    by_cases h : k0 = k
    · subst h; simp [setOptIn, lookupOpt]
    · simp [setOptIn, lookupOpt, if_neg h, ih]

theorem lookupOpt_setOptIn_ne : ∀ (o : COptions) (k0 k v : PyStr), k0 ≠ k →
    lookupOpt (setOptIn o k0 v) k = lookupOpt o k := by
  intro o
  induction o with
  | nil => intro k0 k v h; simp [setOptIn, lookupOpt, h]
  | cons kv o ih =>
    intro k0 k v h
    obtain ⟨k1, v1⟩ := kv
    by_cases h1 : k1 = k0
    · subst h1
      simp [setOptIn, lookupOpt, if_neg h]
    · by_cases h2 : k1 = k
      · subst h2
        simp [setOptIn, if_neg h1, lookupOpt]
      · simp [setOptIn, if_neg h1, lookupOpt, if_neg h2, ih _ _ v h]

theorem chanfold_bitmask (f : PyStr → PyStr) : ∀ (l : List (PyStr × PyStr))
    (ch : ChannelObj),
    (l.foldl (chanStep f) ch).bitmask =
      if (l.filter (fun kv => isDigits (sanitizeKey kv.1))).isEmpty then ch.bitmask
      else some (ch.bitmask.getD [] ++
        (l.filter (fun kv => isDigits (sanitizeKey kv.1))).map Prod.snd) := by
  intro l
  induction l with
  | nil => intro ch; simp
  | cons kv l ih =>
    intro ch
    simp only [List.foldl_cons]
    by_cases hd : isDigits (sanitizeKey kv.1) = true
    · rw [List.filter_cons_of_pos (by simpa using hd)]
      have hstep : chanStep f ch kv =
          { ch with bitmask := some ((ch.bitmask.getD []) ++ [kv.2]) } := by
        simp [chanStep, hd]
      rw [hstep, ih]
      by_cases he : (l.filter (fun kv => isDigits (sanitizeKey kv.1))).isEmpty
      · rw [if_pos he]
        simp [he, List.isEmpty_iff.mp he]
      · rw [if_neg he]
        simp only [List.isEmpty_cons, if_false]
        simp [List.append_assoc]
    · rw [List.filter_cons_of_neg (by simpa using hd)]
      have hstep : (chanStep f ch kv).bitmask = ch.bitmask := by
        simp [chanStep, hd]
      rw [ih, hstep]

theorem chanfold_attrs_untouched (f : PyStr → PyStr) : ∀ (l : List (PyStr × PyStr))
    (ch : ChannelObj) (k : PyStr), (∀ kv ∈ l, sanitizeKey kv.1 ≠ k) →
    lookupOpt (l.foldl (chanStep f) ch).attrs k = lookupOpt ch.attrs k := by
  intro l
  induction l with
  | nil => intro ch k _; rfl
  | cons kv l ih =>
    intro ch k h
    simp only [List.foldl_cons]
    rw [ih _ _ (fun kv2 h2 => h kv2 (List.mem_cons_of_mem _ h2))]
    by_cases hd : isDigits (sanitizeKey kv.1) = true
    · simp [chanStep, hd]
    · have hat : (chanStep f ch kv).attrs =
          setOptIn ch.attrs (sanitizeKey kv.1) (f (rstripP kv.2)) := by
        simp [chanStep, hd]
      rw [hat, lookupOpt_setOptIn_ne _ _ _ _ (h kv (by simp))]

theorem chanfold_attrs_set (f : PyStr → PyStr) (l1 : List (PyStr × PyStr))
    (kv : PyStr × PyStr) (l2 : List (PyStr × PyStr)) (ch : ChannelObj)
    (hd : isDigits (sanitizeKey kv.1) = false)
    (h2 : ∀ kv2 ∈ l2, sanitizeKey kv2.1 ≠ sanitizeKey kv.1) :
    lookupOpt ((l1 ++ kv :: l2).foldl (chanStep f) ch).attrs (sanitizeKey kv.1) =
      some (f (rstripP kv.2)) := by
  rw [List.foldl_append, List.foldl_cons]
  rw [chanfold_attrs_untouched f l2 _ _ h2]
  have hat : (chanStep f (l1.foldl (chanStep f) ch) kv).attrs =
      setOptIn (l1.foldl (chanStep f) ch).attrs (sanitizeKey kv.1)
        (f (rstripP kv.2)) := by
    simp [chanStep, hd]
  rw [hat, lookupOpt_setOptIn_self]

/-- C10: walking a channel section's options, the digit keys append their
raw values to the channel's `bitmask` list in the order of the key-sorted
item list — which is a permutation of the items, pairwise nondecreasing in
the lexicographic string order of the keys, so a bit keyed `"10"` is
appended before a bit keyed `"2"` — while every non-digit key is set as a
named attribute (the sanitised key) holding the evaluated stripped value.
The no-duplicate hypothesis reflects that `ConfigParser` sections cannot
hold two options whose sanitised keys coincide. -/
theorem C10_digit_bitmask_order (f : PyStr → PyStr) (ch : ChannelObj)
    (items : List (PyStr × PyStr)) (kv : PyStr × PyStr)
    (hkv : kv ∈ items) (hdig : isDigits (sanitizeKey kv.1) = false)
    (hnd : ((sortItems items).map (fun x => sanitizeKey x.1)).Nodup) :
    ((applyChannelItems f ch items).bitmask =
      if ((sortItems items).filter (fun x => isDigits (sanitizeKey x.1))).isEmpty
        then ch.bitmask
        else some (ch.bitmask.getD [] ++
          ((sortItems items).filter
            (fun x => isDigits (sanitizeKey x.1))).map Prod.snd)) ∧
    (sortItems items).Sorted itemRel ∧
    (sortItems items).Perm items ∧
    lookupOpt (applyChannelItems f ch items).attrs (sanitizeKey kv.1) =
      some (f (rstripP kv.2)) := by
  refine ⟨chanfold_bitmask f (sortItems items) ch,
    List.sorted_insertionSort itemRel items,
    List.perm_insertionSort itemRel items, ?_⟩
  have hmem : kv ∈ sortItems items :=
    (List.perm_insertionSort itemRel items).mem_iff.mpr hkv
  obtain ⟨l1, l2, hsplit⟩ := List.append_of_mem hmem
  have hl2 : ∀ kv2 ∈ l2, sanitizeKey kv2.1 ≠ sanitizeKey kv.1 := by
    intro kv2 hkv2 heq
    rw [hsplit, List.map_append] at hnd
    have hsuf := hnd.of_append_right
    rw [List.map_cons, List.nodup_cons] at hsuf
    exact hsuf.1 (heq ▸ List.mem_map_of_mem (fun x => sanitizeKey x.1) hkv2)
  unfold applyChannelItems
  rw [hsplit]
  exact chanfold_attrs_set f l1 kv l2 ch hdig hl2

theorem C10_digit_bitmask_order_witness :
    (applyChannelItems (fun v => v) (bareChannel (pys "L1:TEST-CHANNEL"))
        [(pys "2", pys "B2"), (pys "10", pys "B10"), (pys "foo", pys "42")]).bitmask =
      some [pys "B10", pys "B2"] ∧
    lookupOpt (applyChannelItems (fun v => v) (bareChannel (pys "L1:TEST-CHANNEL"))
        [(pys "2", pys "B2"), (pys "10", pys "B10"), (pys "foo", pys "42")]).attrs
        (pys "foo") =
      some (pys "42") := by
  have h := C10_digit_bitmask_order (fun v => v)
    (bareChannel (pys "L1:TEST-CHANNEL"))
    [(pys "2", pys "B2"), (pys "10", pys "B10"), (pys "foo", pys "42")]
    (pys "foo", pys "42") (by decide) (by decide) (by decide)
  exact ⟨h.1.trans (by decide), h.2.2.2.trans (by decide)⟩

/-- Recognises the outcome of tab linking that aborts with a dictionary
lookup error: an `Except.error` whose message starts with `KeyError: `
(the only error the linking pass can raise). -/
def isKeyError : Except PyStr RootMap → Bool
  | .error msg => msg.take 10 == pys "KeyError: "
  | .ok _ => false

theorem addChildStep_error_key (m : RootMap) (u : STab) (e : PyStr)
    (h : addChildStep m u = .error e) : e.take 10 = pys "KeyError: " := by
  cases hp : u.parent with
  | none =>
    simp only [addChildStep, hp] at h
    exact Except.noConfusion h
  | some p =>
    simp only [addChildStep, hp] at h
    by_cases he : p.isEmpty = true
    · rw [if_pos he] at h
      exact Except.noConfusion h
    · rw [if_neg he] at h
      cases hq : lookupRoot m p with
      | none =>
        rw [hq] at h
        injection h with h2
        rw [← h2]
        have hlen : (pys "KeyError: ").length = 10 := by decide
        rw [← hlen]
        exact List.take_left (pys "KeyError: ") p
      | some cs =>
        rw [hq] at h
        exact Except.noConfusion h

theorem foldlM_offender_keyerror : ∀ (l : List STab) (m : RootMap),
    (∃ t ∈ l, ∃ p, t.parent = some p ∧ p.isEmpty = false ∧ p ∉ m.map Prod.fst) →
    isKeyError (l.foldlM addChildStep m) = true := by
  intro l
  induction l with
  | nil =>
    rintro m ⟨t, ht, _⟩
    simp at ht
  | cons u l ih =>
    rintro m ⟨t, ht, p, hp, hpe, hpm⟩
    rw [List.foldlM_cons]
    cases hstep : addChildStep m u with
    | error e =>
      have he := addChildStep_error_key m u e hstep
      show isKeyError (Except.error e) = true
      simp [isKeyError, he]
    | ok m1 =>
      show isKeyError (l.foldlM addChildStep m1) = true
      have hkeys := addChildStep_ok_keys m m1 u hstep
      rcases List.mem_cons.mp ht with rfl | htl
      · exfalso
        simp only [addChildStep, hp] at hstep
        rw [if_neg (by simp [hpe])] at hstep
        cases hq : lookupRoot m p with
        | none =>
          rw [hq] at hstep
          exact Except.noConfusion hstep
        | some cs =>
          have hnone := (lookupRoot_eq_none_iff m p).mpr hpm
          rw [hnone] at hq
          exact Option.noConfusion hq
      · exact ih m1 ⟨t, htl, p, hp, hpe, by rw [hkeys]; exact hpm⟩

/-- C4: whenever some parsed tab declares a truthy parent name that is not
the name of any root (any tab with a falsy declared parent), tab linking
aborts with a dictionary lookup error (`KeyError`); no result mapping is
produced, so no root is silently created for the unresolved name. -/
theorem C4_parent_lookup_error (tabs : List STab) (t : STab) (p : PyStr)
    (ht : t ∈ tabs) (hp : t.parent = some p) (hpe : p.isEmpty = false)
    (hroot : ∀ r ∈ tabs, truthyParent r.parent = false → r.name ≠ p) :
    isKeyError (linkTabs tabs) = true := by
  apply foldlM_offender_keyerror
  refine ⟨t, ht, p, hp, hpe, ?_⟩
  rw [collectRoots_keys]
  rintro ⟨r, hr, h1, h2⟩
  exact hroot r hr h1 h2

theorem C4_parent_lookup_error_witness :
    isKeyError (linkTabs [STab.mk (pys "A") none,
      STab.mk (pys "B") (some (pys "Nonexistent"))]) = true :=
  C4_parent_lookup_error
    [STab.mk (pys "A") none, STab.mk (pys "B") (some (pys "Nonexistent"))]
    (STab.mk (pys "B") (some (pys "Nonexistent"))) (pys "Nonexistent")
    (by decide) rfl (by decide) (by decide)
